import Mathlib

/-!
Verification of the orderflow-charts trade aggregation and footprint
rendering core.  JavaScript numbers are embedded as exact rationals;
`Math.round` is embedded as `jround` (floor of x + 1/2, which matches the
ECMAScript definition, ties toward positive infinity) and `Math.floor`
as `Int.floor`.  `Math.random()` values are abstracted as oracle
functions supplied as parameters.
-/

/-- JS Math.round: floor (x + 1/2). -/
def jround (x : ℚ) : ℤ := ⌊x + 1/2⌋

/-- JS Number (x.toFixed 1): round to one decimal place. -/
def toFixed1 (x : ℚ) : ℚ := ((jround (x * 10) : ℚ)) / 10

/-- Trade side: the Bybit feed field S is the string Buy or Sell. -/
inductive Side where
  | Buy : Side
  | Sell : Side
deriving DecidableEq

/-- A trade event (fields T, p, v, S of the Bybit publicTrade payload). -/
structure Trade where
  T : ℤ
  p : ℚ
  v : ℚ
  S : Side
deriving DecidableEq

/-- A price level inside a candle (types.ts BidAskLevel). -/
structure BidAskLevel where
  price : ℚ
  bidVol : ℚ
  askVol : ℚ
deriving DecidableEq

/-- An order flow candle (types.ts OrderFlowCandle).  The source stores the
timestamp as an ISO string of the bucket start; we keep the epoch ms.  The
source field `open` is a Lean keyword, rendered `opn`.  The optional cvd
field is modelled as a plain rational; every constructor site in the
modelled code assigns it (the JS fallback `cvd || 0` reads 0 exactly when
we store 0). -/
structure OrderFlowCandle where
  timestamp : ℤ
  opn : ℚ
  high : ℚ
  low : ℚ
  close : ℚ
  bidAskData : List BidAskLevel
  delta : ℚ
  volume : ℚ
  cvd : ℚ
deriving DecidableEq

/-- Default candle used only as the List.getD fallback in statements. -/
def dfltCandle : OrderFlowCandle :=
  { timestamp := 0, opn := 0, high := 0, low := 0, close := 0,
    bidAskData := [], delta := 0, volume := 0, cvd := 0 }

/-- Timeframes supported by the first BybitConnector variant. -/
inductive Timeframe where
  | m1 | m5 | m15 | m30 | h1 | h4 | h12 | d1 | w1 | M1
deriving DecidableEq

/-- BybitConnector.getTimeframeMs. -/
def getTimeframeMs : Timeframe → ℤ
  | .m1 => 1 * 60 * 1000
  | .m5 => 5 * 60 * 1000
  | .m15 => 15 * 60 * 1000
  | .m30 => 30 * 60 * 1000
  | .h1 => 60 * 60 * 1000
  | .h4 => 4 * 60 * 60 * 1000
  | .h12 => 12 * 60 * 60 * 1000
  | .d1 => 24 * 60 * 60 * 1000
  | .w1 => 7 * 24 * 60 * 60 * 1000
  | .M1 => 30 * 24 * 60 * 60 * 1000

/-- Sum of bidVol - askVol over levels (the reduce in recalculateMetrics). -/
def sumDelta (ls : List BidAskLevel) : ℚ :=
  (ls.map (fun l => l.bidVol - l.askVol)).sum

/-- Sum of bidVol + askVol over levels (the reduce in recalculateMetrics). -/
def sumVolume (ls : List BidAskLevel) : ℚ :=
  (ls.map (fun l => l.bidVol + l.askVol)).sum

/-- Sum of bidVol over levels. -/
def sumBid (ls : List BidAskLevel) : ℚ := (ls.map (fun l => l.bidVol)).sum

/-- Sum of askVol over levels. -/
def sumAsk (ls : List BidAskLevel) : ℚ := (ls.map (fun l => l.askVol)).sum

/-- Add a trade volume to the side selected by the trade side string. -/
def applySide (l : BidAskLevel) (volume : ℚ) (side : Side) : BidAskLevel :=
  match side with
  | .Buy => { l with bidVol := l.bidVol + volume }
  | .Sell => { l with askVol := l.askVol + volume }

/-- BybitConnector.updateBidAskData: find the first level with this price
and add the volume to its side; if none exists, push a fresh level at the
end of the array and add the volume there. -/
def updateBidAskData (price volume : ℚ) (side : Side) :
    List BidAskLevel → List BidAskLevel
  | [] => [applySide { price := price, bidVol := 0, askVol := 0 } volume side]
  | l :: ls =>
    if l.price = price then applySide l volume side :: ls
    else l :: updateBidAskData price volume side ls

/-- BybitConnector.recalculateMetrics: recompute delta and volume from the
levels, and cvd from previousCvd = (cvd || 0) - (delta || 0) plus the new
exact delta, each stored through Math.round. -/
def recalculateMetrics (c : OrderFlowCandle) : OrderFlowCandle :=
  let delta := sumDelta c.bidAskData
  let volume := sumVolume c.bidAskData
  let previousCvd := c.cvd - c.delta
  { c with delta := (jround delta : ℚ),
           volume := (jround volume : ℚ),
           cvd := (jround (previousCvd + delta) : ℚ) }

/-- The per-trade update block of BybitConnector.processTrades: OHLC update
with the raw price, level update with the price rounded to the nearest 0.5
(Math.round (price * 2) / 2), then recalculateMetrics. -/
def updateCandleWithTrade (c : OrderFlowCandle) (tr : Trade) : OrderFlowCandle :=
  let price := tr.p
  let roundedPrice := (jround (price * 2) : ℚ) / 2
  let c1 := { c with high := max c.high price, low := min c.low price, close := price }
  let c2 := { c1 with bidAskData := updateBidAskData roundedPrice tr.v tr.S c1.bidAskData }
  recalculateMetrics c2

/-- The fresh candle built at rollover in processTrades: OHLC all at the
trade price, empty levels, delta and volume 0, cvd carried from the
previous open candle (or 0). -/
def freshCandle (startTime : ℤ) (price prevCvd : ℚ) : OrderFlowCandle :=
  { timestamp := startTime, opn := price, high := price, low := price,
    close := price, bidAskData := [], delta := 0, volume := 0, cvd := prevCvd }

/-- The JS read this.currentCandle?.cvd || 0. -/
def cvdOf : Option OrderFlowCandle → ℚ
  | some c => c.cvd
  | none => 0

/-- Bucket resolution: Math.floor (tradeTime / timeframeMs) * timeframeMs. -/
def bucketStart (tf t : ℤ) : ℤ := ⌊(t : ℚ) / (tf : ℚ)⌋ * tf

/-- The connector state that processTrades reads and writes. -/
structure ConnState where
  candleStartTime : ℤ
  currentCandle : Option OrderFlowCandle
deriving DecidableEq

/-- One iteration of the forEach in BybitConnector.processTrades.  Returns
the new state and the list of candles finalized (emitted as closed) by this
trade. -/
def processTrade (tf : ℤ) (s : ConnState) (tr : Trade) :
    ConnState × List OrderFlowCandle :=
  let currentCandleStart := bucketStart tf tr.T
  let rolled : ConnState × List OrderFlowCandle :=
    if s.candleStartTime < currentCandleStart then
      ({ candleStartTime := currentCandleStart,
         currentCandle :=
           some (freshCandle currentCandleStart tr.p (cvdOf s.currentCandle)) },
       s.currentCandle.toList)
    else (s, [])
  match rolled.1.currentCandle with
  | none => (rolled.1, rolled.2)
  | some c =>
    ({ rolled.1 with currentCandle := some (updateCandleWithTrade c tr) }, rolled.2)

/-- BybitConnector.processTrades over a batch, accumulating finalized
candles in emission order. -/
def processTrades (tf : ℤ) (s : ConnState) : List Trade → ConnState × List OrderFlowCandle
  | [] => (s, [])
  | tr :: trs =>
    let r := processTrade tf s tr
    let rest := processTrades tf r.1 trs
    (rest.1, r.2 ++ rest.2)

/-- The candle sequence produced by a run: the finalized candles followed by
the still open candle, if any. -/
def producedCandles (r : ConnState × List OrderFlowCandle) : List OrderFlowCandle :=
  r.2 ++ r.1.currentCandle.toList

/-- CVD chain: each candle cvd is the running seed plus its own delta. -/
def cvdChain (seed : ℚ) : List OrderFlowCandle → Prop
  | [] => True
  | c :: cs => c.cvd = seed + c.delta ∧ cvdChain c.cvd cs

/-- Seed value after a prefix: the last cvd, or the initial seed. -/
def lastCvd (seed : ℚ) : List OrderFlowCandle → ℚ
  | [] => seed
  | c :: cs => lastCvd c.cvd cs

/-- A rational that is an integer. -/
def IsInt (x : ℚ) : Prop := ∃ n : ℤ, x = (n : ℚ)

/-- The price keys of the open candle levels are pairwise distinct. -/
def levelsNodup (s : ConnState) : Prop :=
  match s.currentCandle with
  | none => True
  | some c => (c.bidAskData.map (fun l => l.price)).Nodup

/-- Imbalance kind of the footprint helper. -/
inductive ImbKind where
  | bid : ImbKind
  | ask : ImbKind
deriving DecidableEq

/-- isImbalance (part_000): bid when bidVol >= askVol * 3, tested first;
else ask when askVol >= bidVol * 3; else none. -/
def isImbalance (bidVol askVol : ℚ) : Option ImbKind :=
  if askVol * 3 ≤ bidVol then some .bid
  else if bidVol * 3 ≤ askVol then some .ask
  else none

/-- The slicing loop of the overlay aggregation: slice (i, i + bucketSize)
for i = 0, bucketSize, 2*bucketSize, ... . -/
def chunk (b : ℕ) : List BidAskLevel → List (List BidAskLevel)
  | [] => []
  | x :: xs => (x :: xs.take (b - 1)) :: chunk b (xs.drop (b - 1))
termination_by l => l.length
decreasing_by simp [List.length_drop]; omega

/-- Aggregation of one slice: summed bid and ask volumes, representative
price of the middle element (index floor (length / 2)). -/
def aggBucket (bucket : List BidAskLevel) : BidAskLevel :=
  { price := (bucket.getD (bucket.length / 2)
      { price := 0, bidVol := 0, askVol := 0 }).price,
    bidVol := (bucket.map (fun l => l.bidVol)).sum,
    askVol := (bucket.map (fun l => l.askVol)).sum }

/-- The levelsToShow computation of createFootprintOverlay.updateOverlay:
if sortedLevels.length > maxLevels and maxLevels > 0, aggregate slices of
bucketSize = Math.ceil (length / maxLevels); otherwise the sorted levels
verbatim. -/
def levelsToShow (maxLevels : ℤ) (sortedLevels : List BidAskLevel) :
    List BidAskLevel :=
  if maxLevels < (sortedLevels.length : ℤ) ∧ 0 < maxLevels then
    let bucketSize := (⌈(sortedLevels.length : ℚ) / (maxLevels : ℚ)⌉).toNat
    (chunk bucketSize sortedLevels).map aggBucket
  else sortedLevels

/-- The bid weight of generateApproximateBidAsk as a function of direction
and price position: 0.4 + (1 - pos) * 0.4 for a bullish bar, else
0.2 + (1 - pos) * 0.4. -/
def bidRatioOf (isBullish : Bool) (pricePosition : ℚ) : ℚ :=
  if isBullish then 2/5 + (1 - pricePosition) * (2/5)
  else 1/5 + (1 - pricePosition) * (2/5)

/-- Loop body of the first generateApproximateBidAsk variant (price step
0.5, toFixed(1) price, per-level random factor 0.8 + random * 0.4, per-side
minimum 1).  The random values are an oracle indexed by the loop counter;
fuel is the remaining iteration count of i = 0 .. numLevels. -/
def genApproxAux1 (rnd : ℕ → ℚ) (low high range vpl : ℚ) (bullish : Bool) :
    ℕ → ℕ → List BidAskLevel
  | _, 0 => []
  | i, fuel + 1 =>
    let price := toFixed1 (low + (i : ℚ) * (1/2))
    if high < price then []
    else
      let pricePosition := if 0 < range then (price - low) / range else 1/2
      let r := bidRatioOf bullish pricePosition
      let randomFactor := 4/5 + rnd i * (2/5)
      { price := price,
        bidVol := ((max (jround (vpl * r * randomFactor)) 1 : ℤ) : ℚ),
        askVol := ((max (jround (vpl * (1 - r) * randomFactor)) 1 : ℤ) : ℚ) }
        :: genApproxAux1 rnd low high range vpl bullish (i + 1) fuel

/-- First generateApproximateBidAsk variant (BybitConnector for BTCUSD):
numLevels = max (ceil (range / 0.5)) 1, volume spread as
volume / numLevels, loop i = 0 .. numLevels with break once the price
passes high. -/
def generateApproximateBidAsk1 (rnd : ℕ → ℚ) (opn high low close volume : ℚ) :
    List BidAskLevel :=
  let range := high - low
  let numLevels := max ⌈range / (1/2)⌉ 1
  let volumePerLevel := volume / (numLevels : ℚ)
  let isBullish := decide (opn < close)
  genApproxAux1 rnd low high range volumePerLevel isBullish 0 (numLevels.toNat + 1)

/-- Loop body of the second generateApproximateBidAsk variant (price step
10, Math.round price, no random factor, per-side minimum 100). -/
def genApproxAux2 (low high range vpl : ℚ) (bullish : Bool) :
    ℕ → ℕ → List BidAskLevel
  | _, 0 => []
  | i, fuel + 1 =>
    let price := ((jround (low + (i : ℚ) * 10) : ℤ) : ℚ)
    if high < price then []
    else
      let pricePosition := (price - low) / range
      let r := bidRatioOf bullish pricePosition
      { price := price,
        bidVol := ((max (jround (vpl * r)) 100 : ℤ) : ℚ),
        askVol := ((max (jround (vpl * (1 - r))) 100 : ℤ) : ℚ) }
        :: genApproxAux2 low high range vpl bullish (i + 1) fuel

/-- Second generateApproximateBidAsk variant (BybitConnector for BTCUSDT):
numLevels = ceil (range / 10), volume / numLevels per level (the modelled
division returns 0 when numLevels = 0, where JS produces Infinity; the
claims are settled away from that degenerate bar). -/
def generateApproximateBidAsk2 (opn high low close volume : ℚ) :
    List BidAskLevel :=
  let range := high - low
  let numLevels := ⌈range / 10⌉
  let volumePerLevel := volume / (numLevels : ℚ)
  let isBullish := decide (opn < close)
  genApproxAux2 low high range volumePerLevel isBullish 0 (numLevels.toNat + 1)

/-- One row of the kline batch parsed in fetchHistoricalData. -/
structure Kline where
  start : ℤ
  opn : ℚ
  high : ℚ
  low : ℚ
  close : ℚ
  volume : ℚ
deriving DecidableEq

/-- The candle building loop of BybitConnector.fetchHistoricalData: per
kline, synthesize levels with the first generateApproximateBidAsk variant
(fresh random values per kline, given by the two-index oracle), take the
exact delta and total volume of the levels, accumulate the exact running
delta, and store delta, volume and cvd through Math.round. -/
def fetchAux (rnd : ℕ → ℕ → ℚ) : List Kline → ℕ → ℚ → List OrderFlowCandle
  | [], _, _ => []
  | k :: ks, idx, cum =>
    let bidAskData :=
      generateApproximateBidAsk1 (rnd idx) k.opn k.high k.low k.close k.volume
    let delta := sumDelta bidAskData
    let totalVolume := sumVolume bidAskData
    let cum2 := cum + delta
    { timestamp := k.start, opn := k.opn, high := k.high, low := k.low,
      close := k.close, bidAskData := bidAskData,
      delta := (jround delta : ℚ), volume := (jround totalVolume : ℚ),
      cvd := (jround cum2 : ℚ) } :: fetchAux rnd ks (idx + 1) cum2

/-- BybitConnector.fetchHistoricalData on an already parsed kline batch. -/
def fetchHistoricalData (rnd : ℕ → ℕ → ℚ) (klines : List Kline) :
    List OrderFlowCandle :=
  fetchAux rnd klines 0 0

/-- The cvd assignment loop of MockDataGenerator.generateHistoricalData:
cumulativeDelta += candle.delta; candle.cvd = cumulativeDelta.  The
candles themselves come from the Math.random driven generateCandle, which
is abstracted as the input list. -/
def mockAssignCvd (cum : ℚ) : List OrderFlowCandle → List OrderFlowCandle
  | [] => []
  | c :: cs =>
    let cum2 := cum + c.delta
    { c with cvd := cum2 } :: mockAssignCvd cum2 cs

/-! ### Rounding infrastructure -/

lemma jround_eq_of (x : ℚ) (n : ℤ) (h1 : (n : ℚ) ≤ x + 1/2)
    (h2 : x + 1/2 < (n : ℚ) + 1) : jround x = n := by
  unfold jround
  rw [Int.floor_eq_iff]
  exact ⟨by exact_mod_cast h1, by exact_mod_cast h2⟩

lemma jround_int_add (n : ℤ) (x : ℚ) : jround ((n : ℚ) + x) = n + jround x := by
  unfold jround
  rw [add_assoc, Int.floor_int_add]

lemma jround_intCast (n : ℤ) : jround ((n : ℚ)) = n :=
  jround_eq_of _ _ (by norm_num) (by norm_num)

lemma IsInt.intCast (n : ℤ) : IsInt ((n : ℚ)) := ⟨n, rfl⟩

lemma IsInt.zero : IsInt (0 : ℚ) := ⟨0, by norm_num⟩

lemma IsInt.add {x y : ℚ} (hx : IsInt x) (hy : IsInt y) : IsInt (x + y) := by
  obtain ⟨n, rfl⟩ := hx
  obtain ⟨m, rfl⟩ := hy
  exact ⟨n + m, by push_cast; ring⟩

lemma IsInt.sub {x y : ℚ} (hx : IsInt x) (hy : IsInt y) : IsInt (x - y) := by
  obtain ⟨n, rfl⟩ := hx
  obtain ⟨m, rfl⟩ := hy
  exact ⟨n - m, by push_cast; ring⟩

lemma IsInt.jroundCast (x : ℚ) : IsInt ((jround x : ℤ) : ℚ) := ⟨jround x, rfl⟩

lemma jround_cast_of_isInt {x : ℚ} (hx : IsInt x) : ((jround x : ℤ) : ℚ) = x := by
  obtain ⟨n, rfl⟩ := hx
  rw [jround_intCast]

lemma jround_add_cast {x y : ℚ} (hx : IsInt x) :
    ((jround (x + y) : ℤ) : ℚ) = x + ((jround y : ℤ) : ℚ) := by
  obtain ⟨n, rfl⟩ := hx
  rw [jround_int_add]
  push_cast
  ring

/-! ### CVD chain infrastructure -/

lemma lastCvd_append_singleton (seed : ℚ) (l : List OrderFlowCandle)
    (c : OrderFlowCandle) : lastCvd seed (l ++ [c]) = c.cvd := by
  induction l generalizing seed with
  | nil => rfl
  | cons d ds ih => exact ih d.cvd

lemma cvdChain_append_singleton (seed : ℚ) (l : List OrderFlowCandle)
    (c : OrderFlowCandle) :
    cvdChain seed (l ++ [c]) ↔
      cvdChain seed l ∧ c.cvd = lastCvd seed l + c.delta := by
  induction l generalizing seed with
  | nil =>
    simp [cvdChain, lastCvd]
  | cons d ds ih =>
    show (d.cvd = seed + d.delta ∧ cvdChain d.cvd (ds ++ [c])) ↔ _
    rw [ih d.cvd]
    show _ ↔ (d.cvd = seed + d.delta ∧ cvdChain d.cvd ds) ∧
      c.cvd = lastCvd d.cvd ds + c.delta
    tauto

lemma bucketStart_eq (tf t q : ℤ) (h1 : (q : ℚ) ≤ (t : ℚ) / (tf : ℚ))
    (h2 : (t : ℚ) / (tf : ℚ) < (q : ℚ) + 1) : bucketStart tf t = q * tf := by
  unfold bucketStart
  have : ⌊(t : ℚ) / (tf : ℚ)⌋ = q := by
    rw [Int.floor_eq_iff]
    exact ⟨by exact_mod_cast h1, by exact_mod_cast h2⟩
  rw [this]

lemma cvdChain_getD {seed : ℚ} {l : List OrderFlowCandle} (h : cvdChain seed l) :
    ∀ i, i < l.length →
      (l.getD i dfltCandle).cvd =
        (if i = 0 then seed else (l.getD (i - 1) dfltCandle).cvd)
          + (l.getD i dfltCandle).delta := by
  induction l generalizing seed with
  | nil => intro i hi; simp at hi
  | cons c cs ih =>
    obtain ⟨h1, h2⟩ := h
    intro i hi
    match i with
    | 0 => simpa using h1
    | j + 1 =>
      have hj : j < cs.length := by simpa using hi
      have := ih h2 j hj
      match j with
      | 0 => simpa using this
      | k + 1 => simpa using this

/-! ### Aggregator run invariant -/

/-- Invariant of a processTrades run: the closed candles followed by the
open candle form a cvd chain from 0, the open candle carries integer cvd
and delta, and no candle has closed while none was ever open. -/
def ConnInv (s : ConnState) (closed : List OrderFlowCandle) : Prop :=
  cvdChain 0 (closed ++ s.currentCandle.toList) ∧
  (∀ c, s.currentCandle = some c → IsInt c.cvd ∧ IsInt c.delta) ∧
  (s.currentCandle = none → closed = [])

lemma updateCandleWithTrade_fields (c : OrderFlowCandle) (tr : Trade) :
    (updateCandleWithTrade c tr).delta
        = ((jround (sumDelta (updateCandleWithTrade c tr).bidAskData) : ℤ) : ℚ) ∧
    (updateCandleWithTrade c tr).volume
        = ((jround (sumVolume (updateCandleWithTrade c tr).bidAskData) : ℤ) : ℚ) ∧
    (updateCandleWithTrade c tr).cvd
        = ((jround ((c.cvd - c.delta)
            + sumDelta (updateCandleWithTrade c tr).bidAskData) : ℤ) : ℚ) := by
  simp [updateCandleWithTrade, recalculateMetrics]

lemma updateCandleWithTrade_spec (c : OrderFlowCandle) (tr : Trade)
    (h1 : IsInt c.cvd) (h2 : IsInt c.delta) :
    (updateCandleWithTrade c tr).cvd
        = (c.cvd - c.delta) + (updateCandleWithTrade c tr).delta ∧
    IsInt (updateCandleWithTrade c tr).cvd ∧
    IsInt (updateCandleWithTrade c tr).delta := by
  obtain ⟨hd, _, hc⟩ := updateCandleWithTrade_fields c tr
  refine ⟨?_, ?_, ?_⟩
  · rw [hd, hc, jround_add_cast (h1.sub h2)]
  · rw [hc]; exact IsInt.jroundCast _
  · rw [hd]; exact IsInt.jroundCast _

lemma processTrade_inv (tf : ℤ) (s : ConnState) (tr : Trade)
    (closed : List OrderFlowCandle) (h : ConnInv s closed) :
    ConnInv (processTrade tf s tr).1 (closed ++ (processTrade tf s tr).2) := by
  obtain ⟨hchain, hint, hnone⟩ := h
  by_cases hroll : s.candleStartTime < bucketStart tf tr.T
  · cases hs : s.currentCandle with
    | none =>
      have hcl : closed = [] := hnone hs
      subst hcl
      have hfresh := updateCandleWithTrade_spec
        (freshCandle (bucketStart tf tr.T) tr.p (cvdOf s.currentCandle)) tr
        (by rw [hs]; exact IsInt.zero) (by exact IsInt.zero)
      simp only [processTrade, if_pos hroll, hs, Option.toList_none, Option.toList_some]
      refine ⟨?_, ?_, ?_⟩
      · show cvdChain 0 ([] ++ [] ++ [_])
        rw [List.append_nil, List.nil_append, cvdChain]
        refine ⟨?_, trivial⟩
        have := hfresh.1
        rw [hs] at this
        simpa [freshCandle, cvdOf] using this
      · intro c hc
        simp only [Option.some.injEq] at hc
        subst hc
        rw [hs] at hfresh
        exact ⟨hfresh.2.1, hfresh.2.2⟩
      · intro hcc
        exact absurd hcc (by simp)
    | some c0 =>
      have hc0 := hint c0 hs
      have hfresh := updateCandleWithTrade_spec
        (freshCandle (bucketStart tf tr.T) tr.p (cvdOf s.currentCandle)) tr
        (by rw [hs]; exact hc0.1) (by exact IsInt.zero)
      simp only [processTrade, if_pos hroll, hs, Option.toList_some]
      refine ⟨?_, ?_, ?_⟩
      · show cvdChain 0 (closed ++ [c0] ++ [_])
        rw [cvdChain_append_singleton]
        refine ⟨by simpa [hs] using hchain, ?_⟩
        rw [lastCvd_append_singleton]
        have := hfresh.1
        rw [hs] at this
        simpa [freshCandle, cvdOf] using this
      · intro c hc
        simp only [Option.some.injEq] at hc
        subst hc
        rw [hs] at hfresh
        exact ⟨hfresh.2.1, hfresh.2.2⟩
      · intro hcc
        exact absurd hcc (by simp)
  · cases hs : s.currentCandle with
    | none =>
      simp only [processTrade, if_neg hroll, hs]
      exact ⟨by simpa [hs] using hchain, by simp [hs], by simpa [hs] using hnone⟩
    | some c0 =>
      have hc0 := hint c0 hs
      have hu := updateCandleWithTrade_spec c0 tr hc0.1 hc0.2
      simp only [processTrade, if_neg hroll, hs]
      have hchain2 : cvdChain 0 (closed ++ [c0]) := by simpa [hs] using hchain
      rw [cvdChain_append_singleton] at hchain2
      refine ⟨?_, ?_, ?_⟩
      · show cvdChain 0 (closed ++ [] ++ [_])
        rw [List.append_nil, cvdChain_append_singleton]
        refine ⟨hchain2.1, ?_⟩
        rw [hu.1, hchain2.2]
        ring
      · intro c hc
        simp only [Option.some.injEq] at hc
        subst hc
        exact ⟨hu.2.1, hu.2.2⟩
      · intro hcc
        exact absurd hcc (by simp)

lemma processTrades_inv (tf : ℤ) (trs : List Trade) :
    ∀ (s : ConnState) (closed : List OrderFlowCandle), ConnInv s closed →
      ConnInv (processTrades tf s trs).1 (closed ++ (processTrades tf s trs).2) := by
  induction trs with
  | nil => intro s closed h; simpa [processTrades] using h
  | cons tr trs ih =>
    intro s closed h
    have h1 := processTrade_inv tf s tr closed h
    have h2 := ih _ _ h1
    simpa [processTrades, List.append_assoc] using h2

lemma producedCandles_chain (tf t0 : ℤ) (trs : List Trade) :
    cvdChain 0 (producedCandles
      (processTrades tf { candleStartTime := t0, currentCandle := none } trs)) := by
  have base : ConnInv { candleStartTime := t0, currentCandle := none } [] := by
    refine ⟨trivial, ?_, fun _ => rfl⟩
    intro c hc
    exact absurd hc (by simp)
  have h := processTrades_inv tf trs _ [] base
  simpa [producedCandles] using h.1

/-! ### Backfill CVD chain -/

lemma genApproxAux1_isInt (rnd : ℕ → ℚ) (low high range vpl : ℚ) (bullish : Bool) :
    ∀ (fuel i : ℕ) (l : BidAskLevel),
      l ∈ genApproxAux1 rnd low high range vpl bullish i fuel →
        IsInt l.bidVol ∧ IsInt l.askVol := by
  intro fuel
  induction fuel with
  | zero => intro i l hl; simp [genApproxAux1] at hl
  | succ n ih =>
    intro i l hl
    rw [genApproxAux1] at hl
    by_cases hp : high < toFixed1 (low + (i : ℚ) * (1/2))
    · rw [if_pos hp] at hl
      simp at hl
    · rw [if_neg hp] at hl
      rcases List.mem_cons.mp hl with h | h
      · subst h
        exact ⟨IsInt.intCast _, IsInt.intCast _⟩
      · exact ih (i + 1) l h

lemma sumDelta_isInt (ls : List BidAskLevel)
    (h : ∀ l ∈ ls, IsInt l.bidVol ∧ IsInt l.askVol) : IsInt (sumDelta ls) := by
  induction ls with
  | nil => exact IsInt.zero
  | cons l ls ih =>
    have hl := h l (List.mem_cons_self l ls)
    have hrest := ih (fun x hx => h x (List.mem_cons_of_mem l hx))
    simp only [sumDelta, List.map_cons, List.sum_cons]
    exact (hl.1.sub hl.2).add hrest

lemma generateApproximateBidAsk1_sumDelta_isInt (rnd : ℕ → ℚ)
    (opn high low close volume : ℚ) :
    IsInt (sumDelta (generateApproximateBidAsk1 rnd opn high low close volume)) := by
  apply sumDelta_isInt
  intro l hl
  exact genApproxAux1_isInt rnd low high _ _ _ _ _ l hl

lemma fetchAux_chain (rnd : ℕ → ℕ → ℚ) :
    ∀ (ks : List Kline) (idx : ℕ) (cum : ℚ), IsInt cum →
      cvdChain cum (fetchAux rnd ks idx cum) := by
  intro ks
  induction ks with
  | nil => intro idx cum _; trivial
  | cons k ks ih =>
    intro idx cum hcum
    have hδ := generateApproximateBidAsk1_sumDelta_isInt (rnd idx)
      k.opn k.high k.low k.close k.volume
    have hcum2 : IsInt (cum + sumDelta (generateApproximateBidAsk1 (rnd idx)
        k.opn k.high k.low k.close k.volume)) := hcum.add hδ
    refine ⟨?_, ?_⟩
    · show ((jround _ : ℤ) : ℚ) = cum + ((jround _ : ℤ) : ℚ)
      rw [jround_add_cast hcum, jround_cast_of_isInt hδ]
    · show cvdChain ((jround _ : ℤ) : ℚ) (fetchAux rnd ks (idx + 1) _)
      rw [jround_cast_of_isInt hcum2]
      exact ih (idx + 1) _ hcum2

lemma mockAssignCvd_chain :
    ∀ (cs : List OrderFlowCandle) (cum : ℚ), cvdChain cum (mockAssignCvd cum cs) := by
  intro cs
  induction cs with
  | nil => intro cum; trivial
  | cons c cs ih => exact fun cum => ⟨rfl, ih (cum + c.delta)⟩

/-- The index form of CVD continuity from the claim: each cvd is the
previous cvd plus the own delta, and the first cvd equals the first delta. -/
def cvdContinuityAt (cs : List OrderFlowCandle) : Prop :=
  (∀ i, 0 < i → i < cs.length →
    (cs.getD i dfltCandle).cvd
      = (cs.getD (i - 1) dfltCandle).cvd + (cs.getD i dfltCandle).delta) ∧
  (0 < cs.length →
    (cs.getD 0 dfltCandle).cvd = (cs.getD 0 dfltCandle).delta)

lemma cvdChain_continuity {cs : List OrderFlowCandle} (h : cvdChain 0 cs) :
    cvdContinuityAt cs := by
  constructor
  · intro i hi hlen
    have := cvdChain_getD h i hlen
    rwa [if_neg (Nat.pos_iff_ne_zero.mp hi)] at this
  · intro hlen
    have := cvdChain_getD h 0 hlen
    rwa [if_pos rfl, zero_add] at this

/-! ### Claim C2 -/

/-- C2: for every candle sequence produced by the historical backfill
(fetchHistoricalData over any kline batch and any random oracle), by the
live aggregator (processTrades from a fresh state, over any trade batch),
or by the mock generator cvd assignment, candles[i].cvd equals
candles[i-1].cvd + candles[i].delta for all i > 0, and candles[0].cvd
equals candles[0].delta with the running sum seeded at 0. -/
theorem C2_cvd_continuity (rnd : ℕ → ℕ → ℚ) (klines : List Kline)
    (tf t0 : ℤ) (trs : List Trade) (gen : List OrderFlowCandle) :
    cvdContinuityAt (fetchHistoricalData rnd klines) ∧
    cvdContinuityAt (producedCandles
      (processTrades tf { candleStartTime := t0, currentCandle := none } trs)) ∧
    cvdContinuityAt (mockAssignCvd 0 gen) :=
  ⟨cvdChain_continuity (fetchAux_chain rnd klines 0 0 IsInt.zero),
   cvdChain_continuity (producedCandles_chain tf t0 trs),
   cvdChain_continuity (mockAssignCvd_chain gen 0)⟩

/-- Witness for C2 at a concrete two-candle input. -/
theorem C2_cvd_continuity_witness :
    ((mockAssignCvd 0 [dfltCandle, dfltCandle]).getD 1 dfltCandle).cvd
      = ((mockAssignCvd 0 [dfltCandle, dfltCandle]).getD 0 dfltCandle).cvd
        + ((mockAssignCvd 0 [dfltCandle, dfltCandle]).getD 1 dfltCandle).delta :=
  (C2_cvd_continuity (fun _ _ => 0) [] 1 0 [] [dfltCandle, dfltCandle]).2.2.1 1
    (by norm_num) (by norm_num [mockAssignCvd])

/-! ### Claims C8 and C10 -/

/-- C8: imbalance classification is the pure three-way function with the
bid branch tested first: the result is bid exactly when
bidVol >= askVol * 3; the result is ask exactly when askVol >= bidVol * 3
and the bid branch did not already fire; otherwise none.  The four example
values of the claim hold. -/
theorem C8_isImbalance_classification :
    (∀ bidVol askVol : ℚ,
      isImbalance bidVol askVol = some .bid ↔ askVol * 3 ≤ bidVol) ∧
    (∀ bidVol askVol : ℚ,
      isImbalance bidVol askVol = some .ask ↔
        bidVol * 3 ≤ askVol ∧ ¬askVol * 3 ≤ bidVol) ∧
    (∀ bidVol askVol : ℚ,
      isImbalance bidVol askVol = none ↔
        ¬askVol * 3 ≤ bidVol ∧ ¬bidVol * 3 ≤ askVol) ∧
    isImbalance 30 10 = some .bid ∧
    isImbalance 10 30 = some .ask ∧
    isImbalance 10 10 = none ∧
    isImbalance 29 10 = none := by
  refine ⟨?_, ?_, ?_, ?_, ?_, ?_, ?_⟩
  · intro b a
    unfold isImbalance
    by_cases h1 : a * 3 ≤ b
    · simp [h1]
    · by_cases h2 : b * 3 ≤ a <;> simp [h1, h2]
  · intro b a
    unfold isImbalance
    by_cases h1 : a * 3 ≤ b
    · simp [h1]
    · by_cases h2 : b * 3 ≤ a <;> simp [h1, h2]
  · intro b a
    unfold isImbalance
    by_cases h1 : a * 3 ≤ b
    · simp [h1]
    · by_cases h2 : b * 3 ≤ a <;> simp [h1, h2]
  · norm_num [isImbalance]
  · norm_num [isImbalance]
  · norm_num [isImbalance]
  · norm_num [isImbalance]

/-- C10: a level with zero volume on both sides is classified as a bid
imbalance, because the bid branch is tested first and 0 >= 0 * 3 holds. -/
theorem C10_zero_zero_is_bid : isImbalance 0 0 = some .bid := by
  norm_num [isImbalance]

/-! ### Shape lemmas for processTrade -/

lemma processTrade_open_shape (tf : ℤ) (s : ConnState) (tr : Trade) :
    (processTrade tf s tr).1.currentCandle = none ∨
    ∃ c0, (processTrade tf s tr).1.currentCandle
      = some (updateCandleWithTrade c0 tr) := by
  by_cases hroll : s.candleStartTime < bucketStart tf tr.T
  · right
    exact ⟨freshCandle (bucketStart tf tr.T) tr.p (cvdOf s.currentCandle),
      by simp [processTrade, if_pos hroll]⟩
  · cases hs : s.currentCandle with
    | none => left; simp [processTrade, if_neg hroll, hs]
    | some c0 => right; exact ⟨c0, by simp [processTrade, if_neg hroll, hs]⟩

lemma updateCandleWithTrade_bidAskData (c : OrderFlowCandle) (tr : Trade) :
    (updateCandleWithTrade c tr).bidAskData
      = updateBidAskData ((jround (tr.p * 2) : ℚ) / 2) tr.v tr.S c.bidAskData := by
  simp [updateCandleWithTrade, recalculateMetrics]

/-! ### Claim C1 -/

/-- C1 counterexample: a single buy of volume 1/2 leaves the open candle
with volume 1 (the rounded sum) while the exact sum of bidVol + askVol
over its levels is 1/2, so the stored volume does not equal the sum. -/
theorem C1_counterexample :
    ((processTrade 60000 { candleStartTime := 0, currentCandle := none }
        { T := 60000, p := 100, v := 1/2, S := .Buy }).1.currentCandle).map
      (fun c => (c.volume, sumVolume c.bidAskData)) = some (1, 1/2) ∧
    (1 : ℚ) ≠ 1/2 := by
  have hb : bucketStart 60000 60000 = 60000 := by
    have := bucketStart_eq 60000 60000 1 (by norm_num) (by norm_num)
    simpa using this
  have h2 : jround ((100 : ℚ) * 2) = 200 :=
    jround_eq_of _ _ (by norm_num) (by norm_num)
  have h3 : jround ((1 : ℚ) / 2) = 1 := jround_eq_of _ _ (by norm_num) (by norm_num)
  constructor
  · simp [processTrade, hb, freshCandle, cvdOf, updateCandleWithTrade,
      updateBidAskData, applySide, recalculateMetrics, sumDelta, sumVolume, h2]
    all_goals norm_num [h3]
  · norm_num

/-- C1 amended: after each trade the open candle's volume and delta are the
Math.round images of the sum of bidVol + askVol, respectively of
bidVol - askVol, over its levels; both are recomputed from the levels on
every trade.  (Exact equality with the unrounded sums fails for fractional
trade volumes, as the counterexample shows.) -/
theorem C1_amended (tf : ℤ) (s : ConnState) (tr : Trade) (c : OrderFlowCandle)
    (h : (processTrade tf s tr).1.currentCandle = some c) :
    c.volume = ((jround (sumVolume c.bidAskData) : ℤ) : ℚ) ∧
    c.delta = ((jround (sumDelta c.bidAskData) : ℤ) : ℚ) := by
  rcases processTrade_open_shape tf s tr with hn | ⟨c0, hsome⟩
  · rw [h] at hn; exact absurd hn (by simp)
  · rw [h] at hsome
    have hc : c = updateCandleWithTrade c0 tr := Option.some_inj.mp hsome
    obtain ⟨hd, hv, _⟩ := updateCandleWithTrade_fields c0 tr
    subst hc
    exact ⟨hv, hd⟩

/-- Witness for C1 amended at a concrete trade. -/
theorem C1_amended_witness :
    ∃ c : OrderFlowCandle,
      (processTrade 60000 { candleStartTime := 0, currentCandle := none }
        { T := 60000, p := 100, v := 1, S := .Buy }).1.currentCandle = some c ∧
      c.volume = ((jround (sumVolume c.bidAskData) : ℤ) : ℚ) ∧
      c.delta = ((jround (sumDelta c.bidAskData) : ℤ) : ℚ) := by
  have hb : bucketStart 60000 60000 = 60000 := by
    have := bucketStart_eq 60000 60000 1 (by norm_num) (by norm_num)
    simpa using this
  have h2 : jround ((100 : ℚ) * 2) = 200 :=
    jround_eq_of _ _ (by norm_num) (by norm_num)
  have h1 : jround ((1 : ℚ)) = 1 := jround_eq_of _ _ (by norm_num) (by norm_num)
  have h : (processTrade 60000 { candleStartTime := 0, currentCandle := none }
      { T := 60000, p := 100, v := 1, S := .Buy }).1.currentCandle
      = some { timestamp := 60000, opn := 100, high := 100, low := 100,
               close := 100, bidAskData := [{ price := 100, bidVol := 1, askVol := 0 }],
               delta := 1, volume := 1, cvd := 1 } := by
    simp [processTrade, hb, freshCandle, cvdOf, updateCandleWithTrade,
      updateBidAskData, applySide, recalculateMetrics, sumDelta, sumVolume, h2, h1]
    all_goals norm_num
  exact ⟨_, h, C1_amended 60000 _ _ _ h⟩

/-! ### Claim C3 -/

/-- C3 counterexample: start a candle with a trade in the 120000 bucket,
then feed a late trade whose bucket 60000 is strictly earlier.  The late
trade is not dropped: the open candle's high moves from 100 to 200 and its
volume from 1 to 2, so processing it is not a no-op. -/
theorem C3_counterexample :
    bucketStart 60000 60000
      < ((processTrade 60000 { candleStartTime := 0, currentCandle := none }
          { T := 120000, p := 100, v := 1, S := .Buy }).1).candleStartTime ∧
    ((processTrade 60000 { candleStartTime := 0, currentCandle := none }
        { T := 120000, p := 100, v := 1, S := .Buy }).1.currentCandle).map
      (fun c => (c.high, c.volume)) = some (100, 1) ∧
    ((processTrade 60000 (processTrade 60000
        { candleStartTime := 0, currentCandle := none }
        { T := 120000, p := 100, v := 1, S := .Buy }).1
        { T := 60000, p := 200, v := 1, S := .Buy }).1.currentCandle).map
      (fun c => (c.high, c.volume)) = some (200, 2) := by
  have hb1 : bucketStart 60000 120000 = 120000 := by
    have := bucketStart_eq 60000 120000 2 (by norm_num) (by norm_num)
    simpa using this
  have hb2 : bucketStart 60000 60000 = 60000 := by
    have := bucketStart_eq 60000 60000 1 (by norm_num) (by norm_num)
    simpa using this
  have j200 : jround ((200 : ℚ)) = 200 := jround_eq_of _ _ (by norm_num) (by norm_num)
  have j400 : jround ((400 : ℚ)) = 400 := jround_eq_of _ _ (by norm_num) (by norm_num)
  have j1 : jround ((1 : ℚ)) = 1 := jround_eq_of _ _ (by norm_num) (by norm_num)
  have j2 : jround ((2 : ℚ)) = 2 := jround_eq_of _ _ (by norm_num) (by norm_num)
  refine ⟨?_, ?_, ?_⟩
  · simp [processTrade, hb1, hb2]
  · simp [processTrade, hb1, freshCandle, cvdOf, updateCandleWithTrade,
      updateBidAskData, applySide, recalculateMetrics, sumDelta, sumVolume, j200, j1]
  · simp [processTrade, hb1, hb2, freshCandle, cvdOf, updateCandleWithTrade,
      updateBidAskData, applySide, recalculateMetrics, sumDelta, sumVolume,
      j200, j400, j1, j2]
    all_goals norm_num [j200, j400, j1, j2]

/-- C3 amended: a trade whose bucket is strictly earlier than the tracked
candle start does not trigger rollover and closes nothing, but it is NOT
dropped: when an open candle exists, the trade is applied to it (OHLC,
levels and metrics updated exactly as for an in-bucket trade); only when no
open candle exists is the trade discarded.  Closed candles are never
modified (the step emits nothing and touches only the open candle). -/
theorem C3_amended (tf : ℤ) (s : ConnState) (tr : Trade)
    (h : bucketStart tf tr.T < s.candleStartTime) :
    (processTrade tf s tr).2 = [] ∧
    (s.currentCandle = none → (processTrade tf s tr).1 = s) ∧
    (∀ c, s.currentCandle = some c →
      (processTrade tf s tr).1
        = { candleStartTime := s.candleStartTime,
            currentCandle := some (updateCandleWithTrade c tr) }) := by
  have hroll : ¬s.candleStartTime < bucketStart tf tr.T := not_lt.mpr (le_of_lt h)
  refine ⟨?_, ?_, ?_⟩
  · cases hs : s.currentCandle with
    | none => simp [processTrade, if_neg hroll, hs]
    | some c0 => simp [processTrade, if_neg hroll, hs]
  · intro hs
    simp [processTrade, if_neg hroll, hs]
  · intro c hs
    simp [processTrade, if_neg hroll, hs]

/-- Witness for C3 amended at a concrete late trade. -/
theorem C3_amended_witness :
    bucketStart 60000 60000 < (120000 : ℤ) ∧
    (processTrade 60000 { candleStartTime := 120000, currentCandle := none }
      { T := 60000, p := 200, v := 1, S := .Buy }).1
      = { candleStartTime := 120000, currentCandle := none } := by
  have hb : bucketStart 60000 60000 = 60000 := by
    have := bucketStart_eq 60000 60000 1 (by norm_num) (by norm_num)
    simpa using this
  refine ⟨by rw [hb]; norm_num, ?_⟩
  exact (C3_amended 60000 { candleStartTime := 120000, currentCandle := none }
    { T := 60000, p := 200, v := 1, S := .Buy } (by rw [hb]; norm_num)).2.1 rfl

/-! ### Claim C4 -/

/-- C4 counterexample: with no open candle and the tracked candle start
equal to the trade's bucket (exactly the state subscribeRealtime sets up
before the first trade of the current interval), the rollover condition
bucketStart > candleStartTime is false, so no candle is created at all and
the trade is discarded, contradicting the claim that a new candle is
created whenever no open candle exists. -/
theorem C4_counterexample :
    processTrade 60000 { candleStartTime := 60000, currentCandle := none }
        { T := 60000, p := 100, v := 1, S := .Buy }
      = ({ candleStartTime := 60000, currentCandle := none }, []) := by
  have hb : bucketStart 60000 60000 = 60000 := by
    have := bucketStart_eq 60000 60000 1 (by norm_num) (by norm_num)
    simpa using this
  simp [processTrade, hb]

/-- C4 amended: a rollover happens exactly when the trade's bucket strictly
exceeds the tracked candleStartTime (not whenever no open candle exists:
with no open candle and an equal bucket the trade is dropped, as the
counterexample shows).  On rollover the open candle, if any, is emitted
unchanged, the tracked bucket advances, and the new open candle is seeded
with open = high = low = close = trade.price and levels holding exactly
that one trade.  Feeding trades at t, t + 1 ms, t + intervalMs with a 15m
interval from a fresh state whose tracked bucket precedes t produces
exactly 2 candles, the second seeded from the rollover trade's price. -/
theorem C4_amended (tf : ℤ) (s : ConnState) (tr : Trade)
    (h : s.candleStartTime < bucketStart tf tr.T) :
    ((processTrade tf s tr).2 = s.currentCandle.toList ∧
     (processTrade tf s tr).1.candleStartTime = bucketStart tf tr.T ∧
     ∃ c, (processTrade tf s tr).1.currentCandle = some c ∧
       c.opn = tr.p ∧ c.high = tr.p ∧ c.low = tr.p ∧ c.close = tr.p ∧
       c.bidAskData
         = updateBidAskData ((jround (tr.p * 2) : ℚ) / 2) tr.v tr.S []) ∧
    ((producedCandles (processTrades (getTimeframeMs .m15)
        { candleStartTime := 0, currentCandle := none }
        [{ T := 900000, p := 100, v := 1, S := .Buy },
         { T := 900001, p := 101, v := 2, S := .Sell },
         { T := 1800000, p := 102, v := 1, S := .Buy }])).length = 2 ∧
     ((processTrades (getTimeframeMs .m15)
        { candleStartTime := 0, currentCandle := none }
        [{ T := 900000, p := 100, v := 1, S := .Buy },
         { T := 900001, p := 101, v := 2, S := .Sell },
         { T := 1800000, p := 102, v := 1, S := .Buy }]).1.currentCandle).map
       (fun c => (c.opn, c.high, c.low, c.close)) = some (102, 102, 102, 102)) := by
  have htf : getTimeframeMs .m15 = 900000 := by norm_num [getTimeframeMs]
  have hb1 : bucketStart 900000 900000 = 900000 := by
    have := bucketStart_eq 900000 900000 1 (by norm_num) (by norm_num)
    simpa using this
  have hb2 : bucketStart 900000 900001 = 900000 := by
    have := bucketStart_eq 900000 900001 1 (by norm_num) (by norm_num)
    simpa using this
  have hb3 : bucketStart 900000 1800000 = 1800000 := by
    have := bucketStart_eq 900000 1800000 2 (by norm_num) (by norm_num)
    simpa using this
  have j200 : jround ((200 : ℚ)) = 200 := jround_eq_of _ _ (by norm_num) (by norm_num)
  have j202 : jround ((202 : ℚ)) = 202 := jround_eq_of _ _ (by norm_num) (by norm_num)
  have j204 : jround ((204 : ℚ)) = 204 := jround_eq_of _ _ (by norm_num) (by norm_num)
  have j1 : jround ((1 : ℚ)) = 1 := jround_eq_of _ _ (by norm_num) (by norm_num)
  have jm1 : jround ((-1 : ℚ)) = -1 := jround_eq_of _ _ (by norm_num) (by norm_num)
  have j3 : jround ((3 : ℚ)) = 3 := jround_eq_of _ _ (by norm_num) (by norm_num)
  have j0 : jround ((0 : ℚ)) = 0 := jround_eq_of _ _ (by norm_num) (by norm_num)
  refine ⟨⟨?_, ?_, ?_⟩, ?_, ?_⟩
  · simp [processTrade, if_pos h]
  · simp [processTrade, if_pos h]
  · refine ⟨updateCandleWithTrade
      (freshCandle (bucketStart tf tr.T) tr.p (cvdOf s.currentCandle)) tr,
      by simp [processTrade, if_pos h], ?_, ?_, ?_, ?_, ?_⟩
    · simp [updateCandleWithTrade, recalculateMetrics, freshCandle]
    · simp [updateCandleWithTrade, recalculateMetrics, freshCandle]
    · simp [updateCandleWithTrade, recalculateMetrics, freshCandle]
    · simp [updateCandleWithTrade, recalculateMetrics, freshCandle]
    · simp [updateCandleWithTrade, recalculateMetrics, freshCandle]
  · simp [processTrades, processTrade, htf, hb1, hb2, hb3, producedCandles,
      freshCandle, cvdOf, updateCandleWithTrade, updateBidAskData, applySide,
      recalculateMetrics, sumDelta, sumVolume, j200, j202, j204, j1, jm1, j3, j0]
  · simp [processTrades, processTrade, htf, hb1, hb2, hb3,
      freshCandle, cvdOf, updateCandleWithTrade, updateBidAskData, applySide,
      recalculateMetrics, sumDelta, sumVolume, j200, j202, j204, j1, jm1, j3, j0]

/-- Witness for C4 amended at a concrete rollover trade. -/
theorem C4_amended_witness :
    (processTrade 60000 { candleStartTime := 0, currentCandle := none }
      { T := 60000, p := 7, v := 2, S := .Buy }).1.candleStartTime
      = bucketStart 60000 60000 := by
  have hb : bucketStart 60000 60000 = 60000 := by
    have := bucketStart_eq 60000 60000 1 (by norm_num) (by norm_num)
    simpa using this
  exact (C4_amended 60000 { candleStartTime := 0, currentCandle := none }
    { T := 60000, p := 7, v := 2, S := .Buy } (by rw [hb]; norm_num)).1.2.1

/-! ### Claim C9 -/

lemma applySide_price (l : BidAskLevel) (v : ℚ) (sd : Side) :
    (applySide l v sd).price = l.price := by
  cases sd <;> rfl

lemma updateBidAskData_prices (p v : ℚ) (sd : Side) :
    ∀ ls : List BidAskLevel,
      (updateBidAskData p v sd ls).map (fun l => l.price)
        = if p ∈ ls.map (fun l => l.price) then ls.map (fun l => l.price)
          else ls.map (fun l => l.price) ++ [p] := by
  intro ls
  induction ls with
  | nil => simp [updateBidAskData, applySide_price]
  | cons l ls ih =>
    by_cases hp : l.price = p
    · rw [updateBidAskData, if_pos hp]
      simp [applySide_price, hp]
    · rw [updateBidAskData, if_neg hp]
      have hmem : (p ∈ (l :: ls).map (fun l => l.price))
          ↔ (p ∈ ls.map (fun l => l.price)) := by
        simp [List.mem_cons]
        intro hpl
        exact absurd hpl.symm hp
      by_cases hin : p ∈ ls.map (fun l => l.price)
      · rw [if_pos (hmem.mpr hin)]
        simp [ih, hin]
      · rw [if_neg (fun hx => hin (hmem.mp hx))]
        simp [ih, hin]

lemma updateBidAskData_nodup (p v : ℚ) (sd : Side) (ls : List BidAskLevel)
    (h : (ls.map (fun l => l.price)).Nodup) :
    ((updateBidAskData p v sd ls).map (fun l => l.price)).Nodup := by
  rw [updateBidAskData_prices]
  by_cases hp : p ∈ ls.map (fun l => l.price)
  · rwa [if_pos hp]
  · rw [if_neg hp]
    rw [List.nodup_append]
    exact ⟨h, List.nodup_singleton p, by simpa using hp⟩

lemma processTrade_levelsNodup (tf : ℤ) (s : ConnState) (tr : Trade)
    (h : levelsNodup s) : levelsNodup (processTrade tf s tr).1 := by
  by_cases hroll : s.candleStartTime < bucketStart tf tr.T
  · simp only [processTrade, if_pos hroll]
    show levelsNodup
      { candleStartTime := _, currentCandle := some (updateCandleWithTrade _ tr) }
    unfold levelsNodup
    simp only
    rw [updateCandleWithTrade_bidAskData]
    exact updateBidAskData_nodup _ _ _ _ (by simp [freshCandle])
  · cases hs : s.currentCandle with
    | none =>
      simp only [processTrade, if_neg hroll, hs]
      unfold levelsNodup
      simp [hs]
    | some c0 =>
      have h0 : (c0.bidAskData.map (fun l => l.price)).Nodup := by
        unfold levelsNodup at h
        rw [hs] at h
        exact h
      simp only [processTrade, if_neg hroll, hs]
      unfold levelsNodup
      simp only
      rw [updateCandleWithTrade_bidAskData]
      exact updateBidAskData_nodup _ _ _ _ h0

/-- C9 counterexample: three buys at prices 10, 5, 20 inside one bucket
leave the open candle's levels with price keys [10, 5, 20], which is kept
in insertion order, sorted neither ascending nor descending, so the levels
collection is not ordered by price. -/
theorem C9_counterexample :
    ((processTrades 60000 { candleStartTime := 0, currentCandle := none }
      [{ T := 60000, p := 10, v := 1, S := .Buy },
       { T := 60001, p := 5, v := 1, S := .Buy },
       { T := 60002, p := 20, v := 1, S := .Buy }]).1.currentCandle).map
      (fun c => c.bidAskData.map (fun l => l.price)) = some [10, 5, 20] ∧
    ¬List.Chain' (fun a b => a ≤ b) [(10 : ℚ), 5, 20] ∧
    ¬List.Chain' (fun a b => b ≤ a) [(10 : ℚ), 5, 20] := by
  have hb1 : bucketStart 60000 60000 = 60000 := by
    have := bucketStart_eq 60000 60000 1 (by norm_num) (by norm_num)
    simpa using this
  have hb2 : bucketStart 60000 60001 = 60000 := by
    have := bucketStart_eq 60000 60001 1 (by norm_num) (by norm_num)
    simpa using this
  have hb3 : bucketStart 60000 60002 = 60000 := by
    have := bucketStart_eq 60000 60002 1 (by norm_num) (by norm_num)
    simpa using this
  have j20 : jround ((20 : ℚ)) = 20 := jround_eq_of _ _ (by norm_num) (by norm_num)
  have j10 : jround ((10 : ℚ)) = 10 := jround_eq_of _ _ (by norm_num) (by norm_num)
  have j40 : jround ((40 : ℚ)) = 40 := jround_eq_of _ _ (by norm_num) (by norm_num)
  have j1 : jround ((1 : ℚ)) = 1 := jround_eq_of _ _ (by norm_num) (by norm_num)
  have j2 : jround ((2 : ℚ)) = 2 := jround_eq_of _ _ (by norm_num) (by norm_num)
  have j3 : jround ((3 : ℚ)) = 3 := jround_eq_of _ _ (by norm_num) (by norm_num)
  refine ⟨?_, ?_, ?_⟩
  · simp [processTrades, processTrade, hb1, hb2, hb3, freshCandle, cvdOf,
      updateCandleWithTrade, updateBidAskData, applySide, recalculateMetrics,
      sumDelta, sumVolume, j20, j10, j40, j1, j2, j3]
    all_goals norm_num [updateBidAskData, applySide, j20, j10, j40, j1, j2, j3]
  · simp [List.chain'_cons]
    norm_num
  · simp [List.chain'_cons]
    norm_num

/-- C9 amended: after every sequence of trades each price key appears at
most once in the open candle's levels (unique keys hold, maintained by the
find-or-append update), but the collection is kept in first-insertion
order, not ordered by price (as the counterexample shows). -/
theorem C9_amended (tf : ℤ) (s : ConnState) (trs : List Trade)
    (h : levelsNodup s) : levelsNodup (processTrades tf s trs).1 := by
  induction trs generalizing s with
  | nil => simpa [processTrades] using h
  | cons tr trs ih =>
    simp only [processTrades]
    exact ih _ (processTrade_levelsNodup tf s tr h)

/-- Witness for C9 amended from the fresh state. -/
theorem C9_amended_witness :
    levelsNodup (processTrades 60000 { candleStartTime := 0, currentCandle := none }
      [{ T := 60000, p := 10, v := 1, S := .Buy },
       { T := 60001, p := 5, v := 1, S := .Buy }]).1 :=
  C9_amended 60000 { candleStartTime := 0, currentCandle := none } _ trivial

/-! ### Chunk lemmas for the level bucketer -/

lemma sumBid_cons (l : BidAskLevel) (ls : List BidAskLevel) :
    sumBid (l :: ls) = l.bidVol + sumBid ls := by simp [sumBid]

lemma sumAsk_cons (l : BidAskLevel) (ls : List BidAskLevel) :
    sumAsk (l :: ls) = l.askVol + sumAsk ls := by simp [sumAsk]

lemma sumBid_append (l1 l2 : List BidAskLevel) :
    sumBid (l1 ++ l2) = sumBid l1 + sumBid l2 := by simp [sumBid]

lemma sumAsk_append (l1 l2 : List BidAskLevel) :
    sumAsk (l1 ++ l2) = sumAsk l1 + sumAsk l2 := by simp [sumAsk]

lemma chunk_join (b : ℕ) : ∀ l : List BidAskLevel, (chunk b l).flatten = l
  | [] => by simp [chunk]
  | x :: xs => by
    rw [chunk]
    simp only [List.flatten_cons]
    rw [chunk_join b (xs.drop (b - 1))]
    simp [List.take_append_drop]
termination_by l => l.length
decreasing_by simp [List.length_drop]; omega

lemma aggBucket_bidVol (g : List BidAskLevel) : (aggBucket g).bidVol = sumBid g := rfl

lemma aggBucket_askVol (g : List BidAskLevel) : (aggBucket g).askVol = sumAsk g := rfl

lemma chunk_sumBid (b : ℕ) :
    ∀ l : List BidAskLevel, sumBid ((chunk b l).map aggBucket) = sumBid l
  | [] => by simp [chunk, sumBid]
  | x :: xs => by
    rw [chunk]
    simp only [List.map_cons]
    rw [sumBid_cons, aggBucket_bidVol, chunk_sumBid b (xs.drop (b - 1))]
    rw [← sumBid_append]
    congr 1
    simp [List.take_append_drop]
termination_by l => l.length
decreasing_by simp [List.length_drop]; omega

lemma chunk_sumAsk (b : ℕ) :
    ∀ l : List BidAskLevel, sumAsk ((chunk b l).map aggBucket) = sumAsk l
  | [] => by simp [chunk, sumAsk]
  | x :: xs => by
    rw [chunk]
    simp only [List.map_cons]
    rw [sumAsk_cons, aggBucket_askVol, chunk_sumAsk b (xs.drop (b - 1))]
    rw [← sumAsk_append]
    congr 1
    simp [List.take_append_drop]
termination_by l => l.length
decreasing_by simp [List.length_drop]; omega

lemma chunk_mem_shape (b : ℕ) (hb : 1 ≤ b) :
    ∀ l : List BidAskLevel, ∀ g ∈ chunk b l, g ≠ [] ∧ g.length ≤ b
  | [] => by simp [chunk]
  | x :: xs => by
    rw [chunk]
    intro g hg
    rcases List.mem_cons.mp hg with h | h
    · subst h
      refine ⟨by simp, ?_⟩
      simp only [List.length_cons]
      have := List.length_take_le (b - 1) xs
      omega
    · exact chunk_mem_shape b hb (xs.drop (b - 1)) g h
termination_by l => l.length
decreasing_by simp [List.length_drop]; omega

lemma chunk_eq_nil_iff (b : ℕ) (l : List BidAskLevel) :
    chunk b l = [] ↔ l = [] := by
  cases l <;> simp [chunk]

lemma chunk_dropLast_length (b : ℕ) (hb : 1 ≤ b) :
    ∀ l : List BidAskLevel, ∀ g ∈ (chunk b l).dropLast, g.length = b
  | [] => by simp [chunk]
  | x :: xs => by
    rw [chunk]
    intro g hg
    by_cases hrest : chunk b (xs.drop (b - 1)) = []
    · rw [hrest] at hg
      simp at hg
    · obtain ⟨r, rs, hr⟩ := List.exists_cons_of_ne_nil hrest
      rw [hr] at hg
      rw [List.dropLast_cons₂] at hg
      rcases List.mem_cons.mp hg with h | h
      · subst h
        have hxs : xs.drop (b - 1) ≠ [] := by
          intro hd
          rw [hd] at hrest
          simp [chunk] at hrest
        have hlen : b - 1 ≤ xs.length := by
          by_contra hlt
          push_neg at hlt
          exact hxs (List.drop_eq_nil_of_le (le_of_lt hlt))
        simp only [List.length_cons, List.length_take]
        omega
      · have := chunk_dropLast_length b hb (xs.drop (b - 1)) g
        rw [hr] at this
        exact this h
termination_by l => l.length
decreasing_by simp [List.length_drop]; omega

lemma chunk_length (b : ℕ) (hb : 1 ≤ b) :
    ∀ l : List BidAskLevel,
      ((chunk b l).length : ℤ) = ⌈(l.length : ℚ) / (b : ℚ)⌉
  | [] => by simp [chunk]
  | x :: xs => by
    have hb0 : (0 : ℚ) < (b : ℚ) := by exact_mod_cast hb
    rw [chunk]
    simp only [List.length_cons]
    have ih := chunk_length b hb (xs.drop (b - 1))
    rw [List.length_drop] at ih
    by_cases hnb : xs.length + 1 ≤ b
    · have hdrop : xs.length - (b - 1) = 0 := by omega
      rw [hdrop] at ih
      norm_num at ih
      have h1 : ((xs.length : ℚ) + 1) / (b : ℚ) ≤ 1 := by
        rw [div_le_one hb0]
        exact_mod_cast hnb
      have h2 : (0 : ℚ) < ((xs.length : ℚ) + 1) / (b : ℚ) := by positivity
      have hceil : ⌈((xs.length : ℚ) + 1) / (b : ℚ)⌉ = 1 := by
        rw [Int.ceil_eq_iff]
        constructor
        · push_cast
          linarith
        · push_cast
          linarith
      push_cast
      rw [ih]
      simp [hceil]
    · have hcast : ((xs.length - (b - 1) : ℕ) : ℚ)
          = ((xs.length : ℚ) + 1) - (b : ℚ) := by
        have h1 : b - 1 ≤ xs.length := by omega
        rw [Nat.cast_sub h1, Nat.cast_sub hb]
        push_cast
        ring
      rw [hcast] at ih
      push_cast
      rw [ih]
      have hsplit : ((xs.length : ℚ) + 1 - (b : ℚ)) / (b : ℚ)
          = ((xs.length : ℚ) + 1) / (b : ℚ) - 1 := by
        field_simp
      rw [hsplit]
      rw [show (1 : ℚ) = ((1 : ℤ) : ℚ) by norm_num, Int.ceil_sub_int]
      ring
termination_by l => l.length
decreasing_by simp [List.length_drop]; omega

/-! ### Claims C5 and C6 -/

/-- C5: for levels sorted descending by price and a positive row budget,
the bucketer returns the levels verbatim when they fit; volume is conserved
on both sides in every case; and when they do not fit, with
bucketSize = ceil (N / maxRows), the output is exactly the aggregation of
the contiguous slices of bucketSize levels in order (all full except a
shorter non-empty last one), there are ceil (N / bucketSize) buckets, and
each bucket carries the slice's summed bid and ask volumes with the price
of the slice's element at index floor (size / 2). -/
theorem C5_bucketer (maxRows : ℤ) (ls : List BidAskLevel)
    (hs : List.Chain' (fun a b => b.price ≤ a.price) ls) (hm : 1 ≤ maxRows) :
    ((ls.length : ℤ) ≤ maxRows → levelsToShow maxRows ls = ls) ∧
    sumBid (levelsToShow maxRows ls) = sumBid ls ∧
    sumAsk (levelsToShow maxRows ls) = sumAsk ls ∧
    (maxRows < (ls.length : ℤ) →
      ∀ b, b = (⌈(ls.length : ℚ) / (maxRows : ℚ)⌉).toNat →
        levelsToShow maxRows ls = (chunk b ls).map aggBucket ∧
        (chunk b ls).flatten = ls ∧
        (∀ g ∈ chunk b ls, g ≠ [] ∧ g.length ≤ b) ∧
        (∀ g ∈ (chunk b ls).dropLast, g.length = b) ∧
        ((chunk b ls).length : ℤ) = ⌈(ls.length : ℚ) / (b : ℚ)⌉ ∧
        (∀ g ∈ chunk b ls,
          aggBucket g = BidAskLevel.mk
            ((g.getD (g.length / 2) (BidAskLevel.mk 0 0 0)).price)
            (sumBid g) (sumAsk g))) := by
  refine ⟨?_, ?_, ?_, ?_⟩
  · intro hle
    unfold levelsToShow
    rw [if_neg (fun hc => absurd hle (not_le.mpr hc.1))]
  · by_cases hc : maxRows < (ls.length : ℤ) ∧ 0 < maxRows
    · unfold levelsToShow
      rw [if_pos hc]
      exact chunk_sumBid _ ls
    · unfold levelsToShow
      rw [if_neg hc]
  · by_cases hc : maxRows < (ls.length : ℤ) ∧ 0 < maxRows
    · unfold levelsToShow
      rw [if_pos hc]
      exact chunk_sumAsk _ ls
    · unfold levelsToShow
      rw [if_neg hc]
  · intro hlt b hb
    have hc : maxRows < (ls.length : ℤ) ∧ 0 < maxRows := ⟨hlt, by omega⟩
    have hm0 : (0 : ℚ) < (maxRows : ℚ) := by exact_mod_cast (by omega : (0 : ℤ) < maxRows)
    have hn0 : (0 : ℚ) < (ls.length : ℚ) := by
      exact_mod_cast (by omega : (0 : ℤ) < (ls.length : ℤ))
    have hb1 : 1 ≤ b := by
      have := Int.ceil_pos.mpr (div_pos hn0 hm0)
      omega
    refine ⟨?_, chunk_join b ls, chunk_mem_shape b hb1 ls,
      chunk_dropLast_length b hb1 ls, chunk_length b hb1 ls, ?_⟩
    · unfold levelsToShow
      rw [if_pos hc, hb]
    · intro g hg
      rfl

/-- Witness for C5 at five levels and a budget of two rows. -/
theorem C5_bucketer_witness :
    sumBid (levelsToShow 2
      [{ price := 50, bidVol := 1, askVol := 2 },
       { price := 40, bidVol := 3, askVol := 4 },
       { price := 30, bidVol := 5, askVol := 6 },
       { price := 20, bidVol := 7, askVol := 8 },
       { price := 10, bidVol := 9, askVol := 10 }])
      = sumBid
      [{ price := 50, bidVol := 1, askVol := 2 },
       { price := 40, bidVol := 3, askVol := 4 },
       { price := 30, bidVol := 5, askVol := 6 },
       { price := 20, bidVol := 7, askVol := 8 },
       { price := 10, bidVol := 9, askVol := 10 }] :=
  (C5_bucketer 2 _ (by norm_num [List.chain'_cons]) (by norm_num)).2.1

/-- C6 counterexample: with maxRows = 0 and one non-empty level the
bucketer returns the input list unchanged, not the empty list the claim
requires. -/
theorem C6_counterexample :
    levelsToShow 0 [{ price := 100, bidVol := 1, askVol := 1 }]
      = [{ price := 100, bidVol := 1, askVol := 1 }] ∧
    ([{ price := 100, bidVol := 1, askVol := 1 }] : List BidAskLevel) ≠ [] := by
  constructor
  · unfold levelsToShow
    rw [if_neg (by simp)]
  · simp

/-- C6 amended: when maxRows <= 0 the bucketer takes the verbatim branch
and returns the input levels unchanged (no aggregation and no error), not
the empty list. -/
theorem C6_amended (maxRows : ℤ) (ls : List BidAskLevel) (h : maxRows ≤ 0) :
    levelsToShow maxRows ls = ls := by
  unfold levelsToShow
  rw [if_neg (fun hc => absurd hc.2 (not_lt.mpr h))]

/-- Witness for C6 amended at maxRows = 0 and one level. -/
theorem C6_amended_witness :
    (0 : ℤ) ≤ 0 ∧
    levelsToShow 0 [{ price := 5, bidVol := 2, askVol := 3 }]
      = [{ price := 5, bidVol := 2, askVol := 3 }] :=
  ⟨le_refl 0, C6_amended 0 _ (le_refl 0)⟩

/-! ### Claim C7 -/

lemma qceil_eq_of (x : ℚ) (n : ℤ) (h1 : (n : ℚ) - 1 < x) (h2 : x ≤ (n : ℚ)) :
    ⌈x⌉ = n := by
  rw [Int.ceil_eq_iff]
  exact ⟨by exact_mod_cast h1, by exact_mod_cast h2⟩

lemma jround_ge (x : ℚ) : x - 1/2 ≤ ((jround x : ℤ) : ℚ) := by
  unfold jround
  have := Int.sub_one_lt_floor (x + 1/2)
  have h2 : x + 1/2 - 1 = x - 1/2 := by ring
  rw [h2] at this
  exact le_of_lt this

lemma toFixed1_ge (x : ℚ) : x - 1/20 ≤ toFixed1 x := by
  unfold toFixed1
  have h := jround_ge (x * 10)
  have h2 : (x * 10 - 1/2) / 10 ≤ ((jround (x * 10) : ℤ) : ℚ) / 10 :=
    (div_le_div_right (by norm_num)).mpr h
  calc x - 1/20 = (x * 10 - 1/2) / 10 := by ring
  _ ≤ _ := h2

lemma genApproxAux2_price_bounds (low high range vpl : ℚ) (bl : Bool) :
    ∀ (fuel i : ℕ) (l : BidAskLevel),
      l ∈ genApproxAux2 low high range vpl bl i fuel →
        l.price ≤ high ∧ low - 1/2 ≤ l.price := by
  intro fuel
  induction fuel with
  | zero => intro i l hl; simp [genApproxAux2] at hl
  | succ n ih =>
    intro i l hl
    rw [genApproxAux2] at hl
    by_cases hp : high < ((jround (low + (i : ℚ) * 10) : ℤ) : ℚ)
    · rw [if_pos hp] at hl
      simp at hl
    · rw [if_neg hp] at hl
      rcases List.mem_cons.mp hl with h | h
      · subst h
        refine ⟨not_lt.mp hp, ?_⟩
        have h1 := jround_ge (low + (i : ℚ) * 10)
        have h2 : low - 1/2 ≤ low + (i : ℚ) * 10 - 1/2 := by
          have : (0 : ℚ) ≤ (i : ℚ) * 10 := by positivity
          linarith
        exact le_trans h2 h1
      · exact ih (i + 1) l h

lemma genApproxAux1_price_bounds (rnd : ℕ → ℚ) (low high range vpl : ℚ) (bl : Bool) :
    ∀ (fuel i : ℕ) (l : BidAskLevel),
      l ∈ genApproxAux1 rnd low high range vpl bl i fuel →
        l.price ≤ high ∧ low - 1/20 ≤ l.price := by
  intro fuel
  induction fuel with
  | zero => intro i l hl; simp [genApproxAux1] at hl
  | succ n ih =>
    intro i l hl
    rw [genApproxAux1] at hl
    by_cases hp : high < toFixed1 (low + (i : ℚ) * (1/2))
    · rw [if_pos hp] at hl
      simp at hl
    · rw [if_neg hp] at hl
      rcases List.mem_cons.mp hl with h | h
      · subst h
        refine ⟨not_lt.mp hp, ?_⟩
        have h1 := toFixed1_ge (low + (i : ℚ) * (1/2))
        have h2 : low - 1/20 ≤ low + (i : ℚ) * (1/2) - 1/20 := by
          have : (0 : ℚ) ≤ (i : ℚ) * (1/2) := by positivity
          linarith
        exact le_trans h2 h1
      · exact ih (i + 1) l h

/-- C7 counterexample: for the kline bar open 100, high 120, low 100,
close 105, volume 200, the second synthesis variant produces three levels
whose total bidVol + askVol is 600, not 200: with numLevels = 2 the loop
runs 3 times and the per-side minimum of 100 floors every volume, so the
total exceeds the bar volume by 400 — far beyond any rounding of three
levels.  The conjunct shows the sum, the bar volume, and the level count. -/
theorem C7_counterexample :
    sumVolume (generateApproximateBidAsk2 100 120 100 105 200) = 600 ∧
    (600 : ℚ) ≠ 200 ∧
    (generateApproximateBidAsk2 100 120 100 105 200).length = 3 := by
  have hbull : (decide ((100 : ℚ) < 105)) = true := decide_eq_true (by norm_num)
  have hc2 : ⌈(2 : ℚ)⌉ = 2 := qceil_eq_of _ _ (by norm_num) (by norm_num)
  have j100 : jround ((100 : ℚ)) = 100 := jround_eq_of _ _ (by norm_num) (by norm_num)
  have j110 : jround ((110 : ℚ)) = 110 := jround_eq_of _ _ (by norm_num) (by norm_num)
  have j120 : jround ((120 : ℚ)) = 120 := jround_eq_of _ _ (by norm_num) (by norm_num)
  have j80 : jround ((80 : ℚ)) = 80 := jround_eq_of _ _ (by norm_num) (by norm_num)
  have j20 : jround ((20 : ℚ)) = 20 := jround_eq_of _ _ (by norm_num) (by norm_num)
  have j60 : jround ((60 : ℚ)) = 60 := jround_eq_of _ _ (by norm_num) (by norm_num)
  have j40 : jround ((40 : ℚ)) = 40 := jround_eq_of _ _ (by norm_num) (by norm_num)
  refine ⟨?_, by norm_num, ?_⟩
  · norm_num [generateApproximateBidAsk2, genApproxAux2, bidRatioOf, hbull, hc2,
      j100, j110, j120, j80, j20, j60, j40, sumVolume, max_def]
  · norm_num [generateApproximateBidAsk2, genApproxAux2, bidRatioOf, hbull, hc2,
      j100, j110, j120, j80, j20, j60, j40, max_def]

/-- C7 amended: the synthesized levels' prices never exceed bar.high and
never fall more than half a tick below bar.low (the price grid is rounded,
so prices slightly below low are possible); the bullish bid weight is
strictly larger at strictly lower price positions.  The claimed volume
conservation (sum of bidVol + askVol equal to bar.volume within rounding)
does not hold and is dropped: the loop emits numLevels + 1 levels and
floors each side at a per-level minimum, as the counterexample shows. -/
theorem C7_amended (rnd : ℕ → ℚ) (opn high low close volume : ℚ) :
    (∀ l ∈ generateApproximateBidAsk2 opn high low close volume,
      l.price ≤ high ∧ low - 1/2 ≤ l.price) ∧
    (∀ l ∈ generateApproximateBidAsk1 rnd opn high low close volume,
      l.price ≤ high ∧ low - 1/20 ≤ l.price) ∧
    (∀ p1 p2 : ℚ, p1 < p2 → bidRatioOf true p2 < bidRatioOf true p1) := by
  refine ⟨?_, ?_, ?_⟩
  · intro l hl
    exact genApproxAux2_price_bounds low high _ _ _ _ _ l hl
  · intro l hl
    exact genApproxAux1_price_bounds rnd low high _ _ _ _ _ l hl
  · intro p1 p2 h
    unfold bidRatioOf
    simp only [if_pos]
    linarith

/-- Witness for C7 amended at a concrete bar, level and position pair. -/
theorem C7_amended_witness :
    ∃ l, l ∈ generateApproximateBidAsk2 100 120 100 105 200 ∧
      (l.price ≤ 120 ∧ (100 : ℚ) - 1/2 ≤ l.price) ∧
      bidRatioOf true 1 < bidRatioOf true 0 := by
  have hbull : (decide ((100 : ℚ) < 105)) = true := decide_eq_true (by norm_num)
  have hc2 : ⌈(2 : ℚ)⌉ = 2 := qceil_eq_of _ _ (by norm_num) (by norm_num)
  have j100 : jround ((100 : ℚ)) = 100 := jround_eq_of _ _ (by norm_num) (by norm_num)
  have j80 : jround ((80 : ℚ)) = 80 := jround_eq_of _ _ (by norm_num) (by norm_num)
  have j20 : jround ((20 : ℚ)) = 20 := jround_eq_of _ _ (by norm_num) (by norm_num)
  have hmem : BidAskLevel.mk 100 100 100
      ∈ generateApproximateBidAsk2 100 120 100 105 200 := by
    norm_num [generateApproximateBidAsk2, genApproxAux2, bidRatioOf, hbull, hc2,
      j100, j80, j20, max_def]
  refine ⟨_, hmem, (C7_amended (fun _ => 0) 100 120 100 105 200).1 _ hmem, ?_⟩
  exact (C7_amended (fun _ => 0) 100 120 100 105 200).2.2 0 1 (by norm_num)
